import Mathlib

/-!
Verification of the per-core worker pipeline and configuration logic of a
sharded UDP echo server, together with the `percentile` routine of the
accompanying t-digest utility.

The worker loop (`worker_thread_func` in `src/server/main.cpp`) is embedded as
an explicit state machine: the per-worker state records which Recv/Send I/O
contexts are kernel-owned, the free-list of available Send contexts, the four
monotonic counters, and a log of posted operations.  Each completion-queue
entry is one `Completion` event; `processCompletion` is a direct translation
of the body of the per-entry loop.  Completion events carry the data the
kernel wrote into the I/O context (bytes transferred, buffer contents, peer
address) together with the success/failure outcome of the posts the handler
issues, so the model covers every path of the handler.
-/

/-- A Send request as posted by `post_send(ctx->socket, send_ctx,
io_ctx->buffer.data(), bytes_transferred, &io_ctx->remote_addr,
io_ctx->remote_addr_len)`.  Modelled from the spec: the `io_context` record
(operation tag, buffer, remote address, remote address length) is declared in
`common/socket_utils.hpp`, which is not part of the sources; its fields are
taken from the spec's I/O-Context table.  Peer addresses are abstract. -/
structure SendRecord where
  sock : Nat
  payload : List Nat
  dest_addr : Nat
  dest_addr_len : Nat
deriving DecidableEq

/-- One dequeued completion entry, as consumed by the per-entry loop of
`worker_thread_func`.  A `recv` completion carries the kernel-reported byte
count, the buffer contents the kernel wrote, the peer address and length the
kernel reported, and the outcomes of the `post_send` / `post_recv` calls the
handler will make.  A `spurious` entry models `lpOverlapped == nullptr`. -/
inductive Completion (ops : Nat) where
  | recv (i : Fin ops) (bytes_transferred : Nat) (buf : List Nat)
      (peer_addr : Nat) (peer_addr_len : Nat)
      (send_post_ok : Bool) (recv_repost_ok : Bool)
  | send (i : Fin ops)
  | spurious

/-- Per-worker state of `worker_thread_func`: which of the `ops` Recv / Send
contexts currently have a request outstanding in the kernel, the LIFO
free-list `available_send_contexts` (head = top of stack), the four counters
of `worker_context`, a log of the successfully posted Send datagrams and a log
of the `post_recv` calls made. -/
structure WorkerState (ops : Nat) where
  sock : Nat
  recv_in_kernel : Finset (Fin ops)
  send_in_kernel : Finset (Fin ops)
  available_send_contexts : List (Fin ops)
  packets_received : Nat
  packets_sent : Nat
  bytes_received : Nat
  bytes_sent : Nat
  sent_datagrams : List SendRecord
  recv_posts : List (Fin ops)
deriving DecidableEq

/-- Models `post_recv(ctx->socket, io_ctx)`: the call is always logged; the
context returns to kernel ownership only when the post succeeds (the return
value is ignored by the caller, lines 118 and 133). -/
def repost_recv {ops : Nat} (s : WorkerState ops) (i : Fin ops) (ok : Bool) :
    WorkerState ops :=
  { s with
    recv_posts := s.recv_posts ++ [i]
    recv_in_kernel := if ok then insert i s.recv_in_kernel else s.recv_in_kernel }

/-- Direct translation of the per-entry loop body of `worker_thread_func`
(`src/server/main.cpp` lines 96-137).  A Recv completion increments
`packets_received`/`bytes_received`, then, if `bytes_transferred > 0`, pops a
Send context from the free-list (dropping the echo when the list is empty),
posts the echo (returning the context to the free-list when the post fails),
and in every path re-posts the Recv context.  A Send completion returns its
context to the free-list. -/
def processCompletion {ops : Nat} (s : WorkerState ops) :
    Completion ops → WorkerState ops
  | .spurious => s
  | .send i =>
    { s with
      send_in_kernel := s.send_in_kernel.erase i
      available_send_contexts := i :: s.available_send_contexts }
  | .recv i b buf peer peer_len send_ok recv_ok =>
    let s1 : WorkerState ops :=
      { s with
        recv_in_kernel := s.recv_in_kernel.erase i
        packets_received := s.packets_received + 1
        bytes_received := s.bytes_received + b }
    if 0 < b then
      match s1.available_send_contexts with
      | [] => repost_recv s1 i recv_ok
      | sc :: rest =>
        if send_ok then
          repost_recv
            { s1 with
              available_send_contexts := rest
              send_in_kernel := insert sc s1.send_in_kernel
              packets_sent := s1.packets_sent + 1
              bytes_sent := s1.bytes_sent + b
              sent_datagrams :=
                s1.sent_datagrams ++ [⟨s.sock, buf.take b, peer, peer_len⟩] }
            i recv_ok
        else
          repost_recv s1 i recv_ok
    else
      repost_recv s1 i recv_ok

/-- Worker start-up state (lines 45-66): all Send contexts on the free-list
(pushed in index order, so the last index is on top), no Send outstanding, the
initial `post_recv` issued for every Recv context; `posted` is the set whose
initial post succeeded (failures are logged and tolerated, lines 63-65). -/
def initState (ops : Nat) (sock : Nat) (posted : Finset (Fin ops)) :
    WorkerState ops :=
  { sock := sock
    recv_in_kernel := posted
    send_in_kernel := ∅
    available_send_contexts := (List.finRange ops).reverse
    packets_received := 0
    packets_sent := 0
    bytes_received := 0
    bytes_sent := 0
    sent_datagrams := []
    recv_posts := List.finRange ops }

/-- Environment assumption on the kernel: a completion is delivered only for a
context that actually has a request outstanding. -/
def validCompletion {ops : Nat} (s : WorkerState ops) : Completion ops → Prop
  | .recv i _ _ _ _ _ _ => i ∈ s.recv_in_kernel
  | .send i => i ∈ s.send_in_kernel
  | .spurious => True

/-- States the worker loop can reach from start-up by processing valid
completion entries (batch boundaries do not affect the state, so a run is just
a sequence of entries). -/
inductive Reachable (ops : Nat) (sock : Nat) (posted : Finset (Fin ops)) :
    WorkerState ops → Prop where
  | start : Reachable ops sock posted (initState ops sock posted)
  | step {s : WorkerState ops} (c : Completion ops) :
      Reachable ops sock posted s → validCompletion s c →
      Reachable ops sock posted (processCompletion s c)

/-- Send-pool invariant: the free-list has no duplicates and a Send context is
kernel-owned exactly when it is not on the free-list. -/
def SendPoolInv {ops : Nat} (s : WorkerState ops) : Prop :=
  s.available_send_contexts.Nodup ∧
    ∀ i : Fin ops, i ∈ s.send_in_kernel ↔ i ∉ s.available_send_contexts

/-!  Configuration logic of `main` (`src/server/main.cpp`).  -/

/-- Worker-count selection (`main`, lines 189-196): `num_workers` starts at
the processor count and is replaced by the parsed `--cores` value only when
that value is positive and at most the processor count. -/
def choose_num_workers (cores_requested : Int) (num_processors : Nat) : Nat :=
  if 0 < cores_requested ∧ cores_requested ≤ (num_processors : Int) then
    cores_requested.toNat
  else num_processors

/-- Whitespace as recognised by `strtol` (C `isspace`). -/
def is_space (c : Char) : Bool :=
  c == ' ' || c == '\t' || c == '\n' || c == '\x0b' || c == '\x0c' || c == '\r'

/-- Accumulate a base-10 digit run, stopping at the first non-digit. -/
def digits_value : List Char → Nat → Nat
  | [], acc => acc
  | c :: cs, acc =>
    if c.isDigit then digits_value cs (10 * acc + (c.toNat - 48)) else acc

/-- Skip the leading whitespace `strtol` ignores. -/
def drop_spaces : List Char → List Char
  | [] => []
  | c :: cs => if is_space c then drop_spaces cs else c :: cs

/-- Model of `std::strtol(s, nullptr, 10)`: skip whitespace, read an optional
sign and a digit run; with no digits the value is 0.  Range clamping on
overflow is not modelled; it preserves the sign of the value, which is all the
configuration logic inspects. -/
def strtol_base10 (s : String) : Int :=
  match drop_spaces s.data with
  | '-' :: rest => -(digits_value rest 0 : Int)
  | '+' :: rest => (digits_value rest 0 : Int)
  | cs => (digits_value cs 0 : Int)

/-- Socket buffer sizes requested by `main` (lines 198-203 and 256-262): the
`--recvbuf` argument replaces the 4194304-byte default only when it parses to
a positive value, and the same value is used for both `SO_RCVBUF` and
`SO_SNDBUF` (`sndbuf = recvbuf`).  No error path exists for this argument. -/
def chosen_buffer_sizes (recvbuf_arg : String) : Int × Int :=
  let v := strtol_base10 recvbuf_arg
  let recvbuf : Int := if 0 < v then v else 4194304
  (recvbuf, recvbuf)

/-- Result of per-worker endpoint creation: which family was retained, and for
IPv6 whether clearing the `IPV6_V6ONLY` flag succeeded. -/
inductive EndpointOutcome where
  | ipv6 (v6only_cleared : Bool)
  | ipv4
  | failed
deriving DecidableEq

/-- Endpoint creation for one worker index (`main`, lines 226-245): try an
IPv6 socket first; if that fails fall back to IPv4; if the IPv6 socket is
created, attempt to clear `IPV6_V6ONLY`, but keep the socket — and treat it as
dual-stack (`using_ipv6 = true`) — whether or not the `setsockopt` succeeds.
The oracle booleans are the outcomes of `create_udp_socket(AF_INET6)`,
`create_udp_socket(AF_INET)` and the `setsockopt`. -/
def create_endpoint (ipv6_create_ok ipv4_create_ok set_v6only_ok : Bool) :
    EndpointOutcome :=
  if ipv6_create_ok then .ipv6 set_v6only_ok
  else if ipv4_create_ok then .ipv4
  else .failed

/-- Predicate of the claim under test: a retained IPv6 endpoint has the
IPv6-only flag successfully cleared (vacuously true for IPv4 or failure). -/
def retained_ipv6_cleared : EndpointOutcome → Bool
  | .ipv6 cleared => cleared
  | _ => true

/-!  The t-digest utility (`src/common/tdigest.hpp`).  Values and weights are
modelled as rationals; `double` NaN results and thrown exceptions are both
rendered as `none`. -/

/-- A compressed centroid of the t-digest. -/
structure Centroid where
  mean : ℚ
  weight : ℚ
deriving DecidableEq

/-- State of a `TDigest`: buffered raw points, compressed centroids, and the
running total weight. -/
structure TDigest where
  compression : ℚ
  buffer : List ℚ
  centroids : List Centroid
  total_weight : ℚ
deriving DecidableEq

/-- State after the `TDigest(compression)` constructor. -/
def TDigest.init (compression : ℚ) : TDigest :=
  { compression := compression, buffer := [], centroids := [], total_weight := 0 }

/-- `TDigest::add`: append to the buffer and bump the total weight. -/
def TDigest.add (d : TDigest) (x : ℚ) : TDigest :=
  { d with buffer := d.buffer ++ [x], total_weight := d.total_weight + 1 }

/-- Comparator used by `percentile`'s `std::sort` call: order by value. -/
def le_fst (a b : ℚ × ℚ) : Prop := a.1 ≤ b.1

instance : DecidableRel le_fst :=
  fun a b => inferInstanceAs (Decidable (a.1 ≤ b.1))

/-- The merged `(value, weight)` view built at the top of
`TDigest::percentile` (lines 116-126): centroids then buffered points (weight
1), sorted by value only when the buffer is non-empty. -/
def percentile_merged (d : TDigest) : List (ℚ × ℚ) :=
  let merged := d.centroids.map (fun c => (c.mean, c.weight)) ++
    d.buffer.map (fun v => (v, (1 : ℚ)))
  if d.buffer.isEmpty then merged else List.insertionSort le_fst merged

/-- The cumulative-weight walk of `TDigest::percentile` (lines 134-142):
return the value of the first item whose running weight reaches the target;
`none` when the list is exhausted. -/
def percentile_walk (target : ℚ) : ℚ → List (ℚ × ℚ) → Option ℚ
  | _, [] => none
  | cum, (v, w) :: rest =>
    if target ≤ cum + w then some v else percentile_walk target (cum + w) rest

/-- `TDigest::percentile` (lines 112-146).  `none` models both the
`std::invalid_argument` throw for `q` outside `[0,1]` and the NaN returns for
an empty digest; the fall-through after the walk returns the last value. -/
def TDigest.percentile (d : TDigest) (q : ℚ) : Option ℚ :=
  if ¬(0 ≤ q ∧ q ≤ 1) then none
  else if d.total_weight ≤ 0 then none
  else
    let merged := percentile_merged d
    if merged = [] then none
    else
      match percentile_walk (q * d.total_weight) 0 merged with
      | some v => some v
      | none => merged.getLast?.map Prod.fst

/-- Cumulative weight of the merged view through bucket `i` (inclusive). -/
def cumulative_weight (merged : List (ℚ × ℚ)) (i : Nat) : ℚ :=
  ((merged.take (i + 1)).map Prod.snd).sum

/-- Index of the bucket whose cumulative weight first reaches `target` -- the
bucket the spec says the percentile is taken from. -/
def first_reaching_bucket (merged : List (ℚ × ℚ)) (target : ℚ) : Option Nat :=
  (List.range merged.length).find?
    (fun i => decide (target ≤ cumulative_weight merged i))

/-!  Helper lemmas. -/

theorem repost_recv_sock {ops : Nat} (s : WorkerState ops) (i : Fin ops)
    (ok : Bool) : (repost_recv s i ok).sock = s.sock := rfl

theorem repost_recv_send_in_kernel {ops : Nat} (s : WorkerState ops)
    (i : Fin ops) (ok : Bool) :
    (repost_recv s i ok).send_in_kernel = s.send_in_kernel := rfl

theorem repost_recv_available {ops : Nat} (s : WorkerState ops) (i : Fin ops)
    (ok : Bool) :
    (repost_recv s i ok).available_send_contexts = s.available_send_contexts :=
  rfl

theorem repost_recv_packets_received {ops : Nat} (s : WorkerState ops)
    (i : Fin ops) (ok : Bool) :
    (repost_recv s i ok).packets_received = s.packets_received := rfl

theorem repost_recv_packets_sent {ops : Nat} (s : WorkerState ops)
    (i : Fin ops) (ok : Bool) :
    (repost_recv s i ok).packets_sent = s.packets_sent := rfl

theorem repost_recv_bytes_received {ops : Nat} (s : WorkerState ops)
    (i : Fin ops) (ok : Bool) :
    (repost_recv s i ok).bytes_received = s.bytes_received := rfl

theorem repost_recv_bytes_sent {ops : Nat} (s : WorkerState ops) (i : Fin ops)
    (ok : Bool) : (repost_recv s i ok).bytes_sent = s.bytes_sent := rfl

theorem repost_recv_sent_datagrams {ops : Nat} (s : WorkerState ops)
    (i : Fin ops) (ok : Bool) :
    (repost_recv s i ok).sent_datagrams = s.sent_datagrams := rfl

theorem repost_recv_recv_posts {ops : Nat} (s : WorkerState ops) (i : Fin ops)
    (ok : Bool) : (repost_recv s i ok).recv_posts = s.recv_posts ++ [i] := rfl

/-- C1: a Recv completion with `bytes_transferred > 0` that is echoed (the
free-list is non-empty and the `post_send` succeeds) posts a Send on the same
endpoint carrying exactly the first `bytes_transferred` bytes of the buffer
the Recv filled, addressed to the peer address and length the kernel reported
for that Recv completion. -/
theorem c1_echo_same_endpoint_payload_peer {ops : Nat} (s : WorkerState ops)
    (i : Fin ops) (b : Nat) (buf : List Nat) (peer peer_len : Nat) (rok : Bool)
    (sc : Fin ops) (rest : List (Fin ops))
    (hv : i ∈ s.recv_in_kernel) (hb : 0 < b)
    (hfree : s.available_send_contexts = sc :: rest) :
    (processCompletion s
        (.recv i b buf peer peer_len true rok)).sent_datagrams
      = s.sent_datagrams ++
        [{ sock := s.sock, payload := buf.take b, dest_addr := peer,
           dest_addr_len := peer_len }] := by
  simp [processCompletion, hfree, hb, repost_recv]

theorem c1_witness :
    (0 : Fin 2) ∈ (initState 2 7 Finset.univ).recv_in_kernel ∧
    (0 : Nat) < 3 ∧
    (initState 2 7 Finset.univ).available_send_contexts = 1 :: [0] ∧
    (processCompletion (initState 2 7 Finset.univ)
        (.recv 0 3 [10, 20, 30, 40] 5 16 true true)).sent_datagrams
      = (initState 2 7 Finset.univ).sent_datagrams ++
        [{ sock := (initState 2 7 Finset.univ).sock,
           payload := [10, 20, 30, 40].take 3,
           dest_addr := 5, dest_addr_len := 16 }] :=
  ⟨by decide, by decide, by decide,
    c1_echo_same_endpoint_payload_peer (initState 2 7 Finset.univ) 0 3
      [10, 20, 30, 40] 5 16 true 1 [0] (by decide) (by decide) (by decide)⟩

/-- C2: a Recv completion with `bytes_transferred = 0` increments
`packets_received` by one, adds 0 to `bytes_received`, pops no Send context,
posts no Send, leaves `packets_sent` and `bytes_sent` unchanged, and still
re-posts the Recv context on the endpoint. -/
theorem c2_zero_length_datagram {ops : Nat} (s : WorkerState ops) (i : Fin ops)
    (buf : List Nat) (peer peer_len : Nat) (sok rok : Bool)
    (hv : i ∈ s.recv_in_kernel) :
    (processCompletion s (.recv i 0 buf peer peer_len sok rok)).packets_received
        = s.packets_received + 1 ∧
    (processCompletion s (.recv i 0 buf peer peer_len sok rok)).bytes_received
        = s.bytes_received ∧
    (processCompletion s
        (.recv i 0 buf peer peer_len sok rok)).available_send_contexts
        = s.available_send_contexts ∧
    (processCompletion s (.recv i 0 buf peer peer_len sok rok)).send_in_kernel
        = s.send_in_kernel ∧
    (processCompletion s (.recv i 0 buf peer peer_len sok rok)).sent_datagrams
        = s.sent_datagrams ∧
    (processCompletion s (.recv i 0 buf peer peer_len sok rok)).packets_sent
        = s.packets_sent ∧
    (processCompletion s (.recv i 0 buf peer peer_len sok rok)).bytes_sent
        = s.bytes_sent ∧
    (processCompletion s (.recv i 0 buf peer peer_len sok rok)).recv_posts
        = s.recv_posts ++ [i] := by
  simp [processCompletion, repost_recv]

theorem c2_witness :
    (0 : Fin 1) ∈ (initState 1 3 Finset.univ).recv_in_kernel ∧
    (processCompletion (initState 1 3 Finset.univ)
        (.recv 0 0 [] 9 4 true true)).packets_received
        = (initState 1 3 Finset.univ).packets_received + 1 ∧
    (processCompletion (initState 1 3 Finset.univ)
        (.recv 0 0 [] 9 4 true true)).bytes_received
        = (initState 1 3 Finset.univ).bytes_received ∧
    (processCompletion (initState 1 3 Finset.univ)
        (.recv 0 0 [] 9 4 true true)).available_send_contexts
        = (initState 1 3 Finset.univ).available_send_contexts ∧
    (processCompletion (initState 1 3 Finset.univ)
        (.recv 0 0 [] 9 4 true true)).send_in_kernel
        = (initState 1 3 Finset.univ).send_in_kernel ∧
    (processCompletion (initState 1 3 Finset.univ)
        (.recv 0 0 [] 9 4 true true)).sent_datagrams
        = (initState 1 3 Finset.univ).sent_datagrams ∧
    (processCompletion (initState 1 3 Finset.univ)
        (.recv 0 0 [] 9 4 true true)).packets_sent
        = (initState 1 3 Finset.univ).packets_sent ∧
    (processCompletion (initState 1 3 Finset.univ)
        (.recv 0 0 [] 9 4 true true)).bytes_sent
        = (initState 1 3 Finset.univ).bytes_sent ∧
    (processCompletion (initState 1 3 Finset.univ)
        (.recv 0 0 [] 9 4 true true)).recv_posts
        = (initState 1 3 Finset.univ).recv_posts ++ [0] :=
  ⟨by decide,
    c2_zero_length_datagram (initState 1 3 Finset.univ) 0 [] 9 4 true true
      (by decide)⟩

/-- C3: a Recv completion with `bytes_transferred > 0` processed while the
free-list is empty drops the echo -- no Send is posted, `packets_sent` and
`bytes_sent` are unchanged -- and the Recv context is still re-posted. -/
theorem c3_freelist_empty_drops_echo {ops : Nat} (s : WorkerState ops)
    (i : Fin ops) (b : Nat) (buf : List Nat) (peer peer_len : Nat)
    (sok rok : Bool) (hv : i ∈ s.recv_in_kernel) (hb : 0 < b)
    (hfree : s.available_send_contexts = []) :
    (processCompletion s (.recv i b buf peer peer_len sok rok)).sent_datagrams
        = s.sent_datagrams ∧
    (processCompletion s (.recv i b buf peer peer_len sok rok)).packets_sent
        = s.packets_sent ∧
    (processCompletion s (.recv i b buf peer peer_len sok rok)).bytes_sent
        = s.bytes_sent ∧
    (processCompletion s
        (.recv i b buf peer peer_len sok rok)).available_send_contexts = [] ∧
    (processCompletion s (.recv i b buf peer peer_len sok rok)).send_in_kernel
        = s.send_in_kernel ∧
    (processCompletion s (.recv i b buf peer peer_len sok rok)).recv_posts
        = s.recv_posts ++ [i] := by
  simp [processCompletion, hfree, hb, repost_recv]

theorem c3_witness :
    (0 : Fin 1) ∈
      (⟨6, Finset.univ, Finset.univ, [], 4, 4, 9, 9, [], []⟩ :
        WorkerState 1).recv_in_kernel ∧
    (0 : Nat) < 5 ∧
    (⟨6, Finset.univ, Finset.univ, [], 4, 4, 9, 9, [], []⟩ :
        WorkerState 1).available_send_contexts = [] ∧
    ((processCompletion (⟨6, Finset.univ, Finset.univ, [], 4, 4, 9, 9, [], []⟩ :
          WorkerState 1) (.recv 0 5 [1, 2, 3, 4, 5] 8 16 true true)).sent_datagrams
        = (⟨6, Finset.univ, Finset.univ, [], 4, 4, 9, 9, [], []⟩ :
          WorkerState 1).sent_datagrams ∧
      (processCompletion (⟨6, Finset.univ, Finset.univ, [], 4, 4, 9, 9, [], []⟩ :
          WorkerState 1) (.recv 0 5 [1, 2, 3, 4, 5] 8 16 true true)).packets_sent
        = (⟨6, Finset.univ, Finset.univ, [], 4, 4, 9, 9, [], []⟩ :
          WorkerState 1).packets_sent ∧
      (processCompletion (⟨6, Finset.univ, Finset.univ, [], 4, 4, 9, 9, [], []⟩ :
          WorkerState 1) (.recv 0 5 [1, 2, 3, 4, 5] 8 16 true true)).bytes_sent
        = (⟨6, Finset.univ, Finset.univ, [], 4, 4, 9, 9, [], []⟩ :
          WorkerState 1).bytes_sent ∧
      (processCompletion (⟨6, Finset.univ, Finset.univ, [], 4, 4, 9, 9, [], []⟩ :
          WorkerState 1)
          (.recv 0 5 [1, 2, 3, 4, 5] 8 16 true true)).available_send_contexts
        = [] ∧
      (processCompletion (⟨6, Finset.univ, Finset.univ, [], 4, 4, 9, 9, [], []⟩ :
          WorkerState 1) (.recv 0 5 [1, 2, 3, 4, 5] 8 16 true true)).send_in_kernel
        = (⟨6, Finset.univ, Finset.univ, [], 4, 4, 9, 9, [], []⟩ :
          WorkerState 1).send_in_kernel ∧
      (processCompletion (⟨6, Finset.univ, Finset.univ, [], 4, 4, 9, 9, [], []⟩ :
          WorkerState 1) (.recv 0 5 [1, 2, 3, 4, 5] 8 16 true true)).recv_posts
        = (⟨6, Finset.univ, Finset.univ, [], 4, 4, 9, 9, [], []⟩ :
          WorkerState 1).recv_posts ++ [0]) :=
  ⟨by decide, by decide, by decide,
    c3_freelist_empty_drops_echo
      (⟨6, Finset.univ, Finset.univ, [], 4, 4, 9, 9, [], []⟩ : WorkerState 1)
      0 5 [1, 2, 3, 4, 5] 8 16 true true (by decide) (by decide) (by decide)⟩

/-- C4: for an echo attempt (positive Recv, free-list non-empty), when the
`post_send` fails the popped Send context is back on the free-list and
`packets_sent`, `bytes_sent` and the send log are unchanged; when it succeeds
`packets_sent` rises by 1, `bytes_sent` by `bytes_transferred`, the popped
context becomes kernel-owned and the free-list loses its top element. -/
theorem c4_send_post_outcome {ops : Nat} (s : WorkerState ops) (i : Fin ops)
    (b : Nat) (buf : List Nat) (peer peer_len : Nat) (rok : Bool)
    (sc : Fin ops) (rest : List (Fin ops))
    (hv : i ∈ s.recv_in_kernel) (hb : 0 < b)
    (hfree : s.available_send_contexts = sc :: rest) :
    ((processCompletion s
        (.recv i b buf peer peer_len false rok)).available_send_contexts
        = s.available_send_contexts ∧
      (processCompletion s (.recv i b buf peer peer_len false rok)).packets_sent
        = s.packets_sent ∧
      (processCompletion s (.recv i b buf peer peer_len false rok)).bytes_sent
        = s.bytes_sent ∧
      (processCompletion s (.recv i b buf peer peer_len false rok)).sent_datagrams
        = s.sent_datagrams ∧
      (processCompletion s (.recv i b buf peer peer_len false rok)).send_in_kernel
        = s.send_in_kernel) ∧
    ((processCompletion s (.recv i b buf peer peer_len true rok)).packets_sent
        = s.packets_sent + 1 ∧
      (processCompletion s (.recv i b buf peer peer_len true rok)).bytes_sent
        = s.bytes_sent + b ∧
      (processCompletion s
          (.recv i b buf peer peer_len true rok)).available_send_contexts
        = rest ∧
      (processCompletion s (.recv i b buf peer peer_len true rok)).send_in_kernel
        = insert sc s.send_in_kernel) := by
  constructor <;> simp [processCompletion, hfree, hb, repost_recv]

theorem c4_witness :
    (0 : Fin 2) ∈ (initState 2 7 Finset.univ).recv_in_kernel ∧
    (0 : Nat) < 4 ∧
    (initState 2 7 Finset.univ).available_send_contexts = 1 :: [0] ∧
    (((processCompletion (initState 2 7 Finset.univ)
        (.recv 0 4 [1, 2, 3, 4] 5 16 false true)).available_send_contexts
        = (initState 2 7 Finset.univ).available_send_contexts ∧
      (processCompletion (initState 2 7 Finset.univ)
        (.recv 0 4 [1, 2, 3, 4] 5 16 false true)).packets_sent
        = (initState 2 7 Finset.univ).packets_sent ∧
      (processCompletion (initState 2 7 Finset.univ)
        (.recv 0 4 [1, 2, 3, 4] 5 16 false true)).bytes_sent
        = (initState 2 7 Finset.univ).bytes_sent ∧
      (processCompletion (initState 2 7 Finset.univ)
        (.recv 0 4 [1, 2, 3, 4] 5 16 false true)).sent_datagrams
        = (initState 2 7 Finset.univ).sent_datagrams ∧
      (processCompletion (initState 2 7 Finset.univ)
        (.recv 0 4 [1, 2, 3, 4] 5 16 false true)).send_in_kernel
        = (initState 2 7 Finset.univ).send_in_kernel) ∧
    ((processCompletion (initState 2 7 Finset.univ)
        (.recv 0 4 [1, 2, 3, 4] 5 16 true true)).packets_sent
        = (initState 2 7 Finset.univ).packets_sent + 1 ∧
      (processCompletion (initState 2 7 Finset.univ)
        (.recv 0 4 [1, 2, 3, 4] 5 16 true true)).bytes_sent
        = (initState 2 7 Finset.univ).bytes_sent + 4 ∧
      (processCompletion (initState 2 7 Finset.univ)
        (.recv 0 4 [1, 2, 3, 4] 5 16 true true)).available_send_contexts
        = [0] ∧
      (processCompletion (initState 2 7 Finset.univ)
        (.recv 0 4 [1, 2, 3, 4] 5 16 true true)).send_in_kernel
        = insert 1 (initState 2 7 Finset.univ).send_in_kernel)) :=
  ⟨by decide, by decide, by decide,
    c4_send_post_outcome (initState 2 7 Finset.univ) 0 4 [1, 2, 3, 4] 5 16
      true 1 [0] (by decide) (by decide) (by decide)⟩

theorem sendPoolInv_init (ops sock : Nat) (posted : Finset (Fin ops)) :
    SendPoolInv (initState ops sock posted) := by
  constructor
  · simp [initState, List.nodup_reverse, List.nodup_finRange]
  · intro i
    simp [initState, List.mem_reverse, List.mem_finRange]

theorem sendPoolInv_step {ops : Nat} {s : WorkerState ops} (c : Completion ops)
    (hv : validCompletion s c) (h : SendPoolInv s) :
    SendPoolInv (processCompletion s c) := by
  obtain ⟨hnd, hiff⟩ := h
  cases c with
  | spurious => exact ⟨hnd, hiff⟩
  | send i =>
    have hni : i ∉ s.available_send_contexts := (hiff i).mp hv
    refine ⟨List.nodup_cons.mpr ⟨hni, hnd⟩, ?_⟩
    intro j
    by_cases hj : j = i
    · subst hj
      simp [processCompletion, hni]
    · simp only [processCompletion, Finset.mem_erase, List.mem_cons]
      rw [hiff j]
      simp [hj]
  | recv i b buf peer peer_len sok rok =>
    by_cases hb : 0 < b
    · rcases hav : s.available_send_contexts with _ | ⟨sc, rest⟩
      · refine ⟨?_, fun j => ?_⟩
        · simp [processCompletion, hb, hav, repost_recv]
        · have := hiff j
          rw [hav] at this
          simp [processCompletion, hb, hav, repost_recv, this]
      · have hnd' : sc ∉ rest ∧ rest.Nodup := List.nodup_cons.mp (hav ▸ hnd)
        cases sok with
        | false =>
          refine ⟨?_, fun j => ?_⟩
          · simp [processCompletion, hb, hav, repost_recv, hnd', hav ▸ hnd]
          · have := hiff j
            rw [hav] at this
            simp [processCompletion, hb, hav, repost_recv, this]
        | true =>
          refine ⟨?_, fun j => ?_⟩
          · simp [processCompletion, hb, hav, repost_recv, hnd'.2]
          · have := hiff j
            rw [hav] at this
            by_cases hj : j = sc
            · subst hj
              simp [processCompletion, hb, hav, repost_recv, hnd'.1]
            · simp only [processCompletion, hb, hav, repost_recv] at this ⊢
              simp only [List.mem_cons, hj, false_or] at this
              simp [Finset.mem_insert, hj, this]
    · refine ⟨?_, fun j => ?_⟩
      · simp [processCompletion, hb, repost_recv, hnd]
      · simp [processCompletion, hb, repost_recv, hiff j]

theorem sendPoolInv_reachable {ops sock : Nat} {posted : Finset (Fin ops)}
    {s : WorkerState ops} (h : Reachable ops sock posted s) : SendPoolInv s := by
  induction h with
  | start => exact sendPoolInv_init ops sock posted
  | step c hr hv ih => exact sendPoolInv_step c hv ih

/-- C5: in every state the worker loop reaches from start-up, each of the
`ops` Send contexts is in exactly one of the two persistent states
kernel-owned / on the free-list (the application-executing state is transient
within the processing of a single completion entry, so between entries it is
empty), and kernel-owned plus application-side contexts count to `ops` for
both the Send pool and the Recv pool. -/
theorem c5_no_context_leak {ops sock : Nat} {posted : Finset (Fin ops)}
    {s : WorkerState ops} (h : Reachable ops sock posted s) :
    (∀ i : Fin ops,
        (i ∈ s.send_in_kernel ∧ i ∉ s.available_send_contexts) ∨
          (i ∉ s.send_in_kernel ∧ i ∈ s.available_send_contexts)) ∧
      s.send_in_kernel.card + s.available_send_contexts.length = ops ∧
      s.recv_in_kernel.card + (Finset.univ \ s.recv_in_kernel).card = ops := by
  obtain ⟨hnd, hiff⟩ := sendPoolInv_reachable h
  refine ⟨fun i => ?_, ?_, ?_⟩
  · by_cases hi : i ∈ s.available_send_contexts
    · exact Or.inr ⟨fun hk => ((hiff i).mp hk) hi, hi⟩
    · exact Or.inl ⟨(hiff i).mpr hi, hi⟩
  · have hset : s.send_in_kernel = s.available_send_contexts.toFinsetᶜ := by
      ext j
      simp [hiff j, List.mem_toFinset]
    have hlen : s.available_send_contexts.toFinset.card
        = s.available_send_contexts.length := List.toFinset_card_of_nodup hnd
    have hle : s.available_send_contexts.toFinset.card ≤ Fintype.card (Fin ops) :=
      Finset.card_le_univ _
    rw [hset, Finset.card_compl, hlen]
    rw [hlen] at hle
    simp only [Fintype.card_fin] at hle ⊢
    omega
  · have hle : s.recv_in_kernel.card ≤ Fintype.card (Fin ops) :=
      Finset.card_le_univ _
    rw [Finset.card_sdiff (Finset.subset_univ _), Finset.card_univ]
    simp only [Fintype.card_fin] at hle ⊢
    omega

theorem c5_witness :
    (∀ i : Fin 2,
        (i ∈ (processCompletion (initState 2 0 Finset.univ)
              (.recv 0 3 [1, 2, 3] 4 16 true true)).send_in_kernel ∧
            i ∉ (processCompletion (initState 2 0 Finset.univ)
              (.recv 0 3 [1, 2, 3] 4 16 true true)).available_send_contexts) ∨
          (i ∉ (processCompletion (initState 2 0 Finset.univ)
              (.recv 0 3 [1, 2, 3] 4 16 true true)).send_in_kernel ∧
            i ∈ (processCompletion (initState 2 0 Finset.univ)
              (.recv 0 3 [1, 2, 3] 4 16 true true)).available_send_contexts)) ∧
      (processCompletion (initState 2 0 Finset.univ)
          (.recv 0 3 [1, 2, 3] 4 16 true true)).send_in_kernel.card +
        (processCompletion (initState 2 0 Finset.univ)
          (.recv 0 3 [1, 2, 3] 4 16 true true)).available_send_contexts.length
        = 2 ∧
      (processCompletion (initState 2 0 Finset.univ)
          (.recv 0 3 [1, 2, 3] 4 16 true true)).recv_in_kernel.card +
        (Finset.univ \ (processCompletion (initState 2 0 Finset.univ)
          (.recv 0 3 [1, 2, 3] 4 16 true true)).recv_in_kernel).card = 2 :=
  c5_no_context_leak
    (Reachable.step (.recv 0 3 [1, 2, 3] 4 16 true true) Reachable.start
      (show (0 : Fin 2) ∈ (initState 2 0 Finset.univ).recv_in_kernel by decide))

/-- C6: in every state the worker loop reaches from start-up,
`packets_sent ≤ packets_received` and `bytes_sent ≤ bytes_received`: the
send-side counters rise only inside the handling of a Recv completion that
has already raised the receive-side counters by at least as much. -/
theorem c6_counters_consistent {ops sock : Nat} {posted : Finset (Fin ops)}
    {s : WorkerState ops} (h : Reachable ops sock posted s) :
    s.packets_sent ≤ s.packets_received ∧ s.bytes_sent ≤ s.bytes_received := by
  induction h with
  | start => exact ⟨le_refl _, le_refl _⟩
  | @step s c hr hv ih =>
    obtain ⟨h1, h2⟩ := ih
    cases c with
    | spurious => exact ⟨h1, h2⟩
    | send i => exact ⟨h1, h2⟩
    | recv i b buf peer peer_len sok rok =>
      by_cases hb : 0 < b
      · rcases hav : s.available_send_contexts with _ | ⟨sc, rest⟩
        · simp [processCompletion, hb, hav, repost_recv] <;> omega
        · cases sok with
          | false => simp [processCompletion, hb, hav, repost_recv] <;> omega
          | true => simp [processCompletion, hb, hav, repost_recv] <;> omega
      · simp [processCompletion, hb, repost_recv] <;> omega

theorem c6_witness :
    (processCompletion (initState 1 0 Finset.univ)
        (.recv 0 2 [8, 9] 3 4 true true)).packets_sent ≤
      (processCompletion (initState 1 0 Finset.univ)
        (.recv 0 2 [8, 9] 3 4 true true)).packets_received ∧
    (processCompletion (initState 1 0 Finset.univ)
        (.recv 0 2 [8, 9] 3 4 true true)).bytes_sent ≤
      (processCompletion (initState 1 0 Finset.univ)
        (.recv 0 2 [8, 9] 3 4 true true)).bytes_received :=
  c6_counters_consistent
    (Reachable.step (.recv 0 2 [8, 9] 3 4 true true) Reachable.start
      (show (0 : Fin 1) ∈ (initState 1 0 Finset.univ).recv_in_kernel by decide))

/-- C7 counterexample: when the IPv6 socket is created but the `setsockopt`
clearing `IPV6_V6ONLY` fails, the endpoint is still retained as IPv6, so the
claim that every retained IPv6 endpoint has the flag successfully cleared is
false at this input. -/
theorem c7_counterexample :
    create_endpoint true true false = EndpointOutcome.ipv6 false ∧
      retained_ipv6_cleared (create_endpoint true true false) ≠ true := by
  decide

/-- C7 amended: endpoint creation prefers an IPv6 socket, attempting to clear
its IPv6-only flag, and falls back to IPv4 only when IPv6 socket creation
fails; however the IPv6 endpoint is retained (and treated as dual-stack)
whether or not clearing the flag succeeds. -/
theorem c7_dual_stack_preference (v6ok v4ok setok : Bool) :
    (v6ok = true → create_endpoint v6ok v4ok setok = .ipv6 setok) ∧
      (v6ok = false → v4ok = true → create_endpoint v6ok v4ok setok = .ipv4) ∧
      (v6ok = false → v4ok = false →
        create_endpoint v6ok v4ok setok = .failed) := by
  cases v6ok <;> cases v4ok <;> simp [create_endpoint]

theorem c7_witness :
    create_endpoint true true false = EndpointOutcome.ipv6 false :=
  (c7_dual_stack_preference true true false).1 rfl

/-- C8: a `--cores` value of 0 or above the logical processor count leaves the
worker count at the processor count; a value in `[1, processor count]` makes
the worker loop attempt exactly that many workers. -/
theorem c8_worker_count_selection (r : Int) (n : Nat) :
    ((r = 0 ∨ (n : Int) < r) → choose_num_workers r n = n) ∧
      (1 ≤ r → r ≤ (n : Int) → choose_num_workers r n = r.toNat) := by
  constructor
  · rintro (rfl | hgt)
    · simp [choose_num_workers]
    · have : ¬(0 < r ∧ r ≤ (n : Int)) := by
        rintro ⟨-, hle⟩
        omega
      simp [choose_num_workers, this]
  · intro h1 h2
    have : 0 < r ∧ r ≤ (n : Int) := ⟨by omega, h2⟩
    simp [choose_num_workers, this]

theorem c8_witness :
    ((0 : Int) = 0 ∨ (4 : Int) < 0) ∧ choose_num_workers 0 4 = 4 ∧
      (1 ≤ (3 : Int)) ∧ ((3 : Int) ≤ (4 : Int)) ∧ choose_num_workers 3 4 = 3 :=
  ⟨Or.inl rfl, (c8_worker_count_selection 0 4).1 (Or.inl rfl), by decide,
    by decide,
    (c8_worker_count_selection 3 4).2 (by decide) (by decide)⟩

/-- C10: a `--recvbuf` argument that parses (under `strtol` semantics, so
non-numeric text parses to 0) to a non-positive value leaves both the
requested `SO_RCVBUF` and `SO_SNDBUF` sizes at the 4194304-byte default, and
the configuration logic has no error path for this argument. -/
theorem c10_recvbuf_default (s : String) (h : strtol_base10 s ≤ 0) :
    chosen_buffer_sizes s = (4194304, 4194304) := by
  have : ¬0 < strtol_base10 s := by omega
  simp [chosen_buffer_sizes, this]

theorem c10_witness :
    strtol_base10 "0" ≤ 0 ∧ chosen_buffer_sizes "0" = (4194304, 4194304) ∧
      strtol_base10 "-65536" ≤ 0 ∧
      chosen_buffer_sizes "-65536" = (4194304, 4194304) ∧
      strtol_base10 "garbage" ≤ 0 ∧
      chosen_buffer_sizes "garbage" = (4194304, 4194304) :=
  ⟨by decide, c10_recvbuf_default "0" (by decide), by decide,
    c10_recvbuf_default "-65536" (by decide), by decide,
    c10_recvbuf_default "garbage" (by decide)⟩

theorem percentile_walk_eq_find (target : ℚ) (merged : List (ℚ × ℚ)) :
    ∀ cum : ℚ,
      percentile_walk target cum merged =
        ((List.range merged.length).find?
            (fun i => decide (target ≤ cum + cumulative_weight merged i))).bind
          (fun i => (merged[i]?).map Prod.fst) := by
  induction merged with
  | nil => intro cum; simp [percentile_walk]
  | cons hd rest ih =>
    intro cum
    obtain ⟨v, w⟩ := hd
    have h0 : cumulative_weight ((v, w) :: rest) 0 = w := by
      simp [cumulative_weight]
    have hsucc : ∀ i, cumulative_weight ((v, w) :: rest) (i + 1)
        = w + cumulative_weight rest i := by
      intro i
      simp [cumulative_weight]
    rw [percentile_walk]
    by_cases hcw : target ≤ cum + w
    · rw [if_pos hcw, List.length_cons, List.range_succ_eq_map,
        List.find?_cons_of_pos]
      · simp
      · simp [h0, hcw]
    · rw [if_neg hcw, ih (cum + w), List.length_cons,
        List.range_succ_eq_map, List.find?_cons_of_neg, List.find?_map]
      · have hpred : ((fun i =>
              decide (target ≤ cum + cumulative_weight ((v, w) :: rest) i)) ∘
            Nat.succ)
            = fun i => decide (target ≤ cum + w + cumulative_weight rest i) := by
          funext i
          simp [Function.comp, hsucc, add_assoc]
        rw [hpred]
        cases hfind : (List.range rest.length).find?
            (fun i => decide (target ≤ cum + w + cumulative_weight rest i)) with
        | none => simp
        | some i => simp
      · simp [h0, hcw]

/-- C9: for a digest with positive total weight (equal to the summed weight of
its merged view) and `q` in `[0,1]`, `TDigest::percentile` returns exactly the
value of the bucket -- a centroid or a buffered point of the merged sorted
view -- whose cumulative weight first reaches `q` times the total weight.
The returned value is that single bucket's value (the degenerate
interpolation inside one `(value, weight)` item); no blending across adjacent
centroids takes place. -/
theorem c9_percentile_within_bucket (d : TDigest) (q : ℚ)
    (h0 : 0 ≤ q) (h1 : q ≤ 1) (hw : 0 < d.total_weight)
    (hsum : ((percentile_merged d).map Prod.snd).sum = d.total_weight)
    (hne : percentile_merged d ≠ []) :
    ∃ i bucket,
      first_reaching_bucket (percentile_merged d) (q * d.total_weight)
          = some i ∧
        (percentile_merged d)[i]? = some bucket ∧
        d.percentile q = some bucket.1 := by
  have htgt : q * d.total_weight ≤ d.total_weight :=
    mul_le_of_le_one_left (le_of_lt hw) h1
  have hn : 0 < (percentile_merged d).length := List.length_pos.mpr hne
  have hlast : cumulative_weight (percentile_merged d)
      ((percentile_merged d).length - 1) = d.total_weight := by
    rw [cumulative_weight, Nat.sub_add_cancel hn, List.take_length]
    exact hsum
  have hex : ((List.range (percentile_merged d).length).find?
      (fun i => decide (q * d.total_weight ≤
        cumulative_weight (percentile_merged d) i))).isSome := by
    rw [List.find?_isSome]
    refine ⟨(percentile_merged d).length - 1, ?_, ?_⟩
    · rw [List.mem_range]
      omega
    · rw [hlast]
      exact decide_eq_true htgt
  obtain ⟨i, hfind⟩ := Option.isSome_iff_exists.mp hex
  have hi : i < (percentile_merged d).length :=
    List.mem_range.mp (List.mem_of_find?_eq_some hfind)
  obtain ⟨bucket, hbucket⟩ : ∃ b, (percentile_merged d)[i]? = some b := by
    rw [List.getElem?_eq_getElem hi]
    exact ⟨_, rfl⟩
  refine ⟨i, bucket, hfind, hbucket, ?_⟩
  have hc1 : ¬¬(0 ≤ q ∧ q ≤ 1) := not_not_intro ⟨h0, h1⟩
  have hc2 : ¬ d.total_weight ≤ 0 := not_le.mpr hw
  have hwalk : percentile_walk (q * d.total_weight) 0 (percentile_merged d)
      = some bucket.1 := by
    rw [percentile_walk_eq_find]
    simp only [zero_add]
    rw [hfind]
    simp [hbucket]
  rw [TDigest.percentile, if_neg hc1, if_neg hc2]
  simp only [if_neg hne, hwalk]

theorem c9_witness :
    ∃ i bucket,
      first_reaching_bucket
          (percentile_merged (⟨100, [1, 2, 3], [], 3⟩ : TDigest))
          ((1 / 2) * (⟨100, [1, 2, 3], [], 3⟩ : TDigest).total_weight)
          = some i ∧
        (percentile_merged (⟨100, [1, 2, 3], [], 3⟩ : TDigest))[i]?
          = some bucket ∧
        (⟨100, [1, 2, 3], [], 3⟩ : TDigest).percentile (1 / 2)
          = some bucket.1 :=
  c9_percentile_within_bucket (⟨100, [1, 2, 3], [], 3⟩ : TDigest) (1 / 2)
    (by norm_num) (by norm_num) (by norm_num)
    (by norm_num [percentile_merged, List.insertionSort, List.orderedInsert,
      le_fst])
    (by
      norm_num [percentile_merged, List.insertionSort, List.orderedInsert,
        le_fst]
      exact List.cons_ne_nil _ _)
